import Mathlib

/-!
Shallow embedding of the policy evaluator, policy repository, audit
pipeline and configuration loader of the go-guardrails-api gateway
(`internal/analyzer/analyzer.go`, `internal/api/handlers.go`,
`internal/policy/repository.go`, `internal/audit/logger.go`,
`internal/cache/redis_cache.go`, `internal/config/config.go`), with
theorems checking the specification's claims about them.

Modelling conventions:
- Go strings are Lean `String`; `strings.ToLower` is a `Char.toLower`
  map (the concrete inputs used in witnesses are ASCII, where the two
  agree).
- UUIDs are opaque `Nat` identifiers.
- External collaborators that live outside this repository (the Go
  `regexp` engine, the go-away profanity detector, the JSON codec, the
  database and Redis connections) enter as explicit function parameters,
  so every theorem quantifies over their behaviour; the code of this
  repository is embedded concretely.
- The evaluator's goroutine fan-in receives per-policy results in a
  nondeterministic order; the embedding fixes snapshot order.  The
  properties proved below (error propagation, result length, result
  membership, derived verdict) are invariant under permutation of the
  fan-in order, so the deterministic embedding is faithful for them.
-/

namespace Gateway

/-- Policy record, from `pkg/models` (`Policy` struct): identity, name,
pattern kind and payload, severity, action and enabled flag.  Timestamps
and description are irrelevant to the claims and omitted. -/
structure Policy where
  id : Nat
  name : String
  patternType : String
  patternValue : String
  severity : String
  action : String
  enabled : Bool
  deriving Repr, DecidableEq

/-- Per-policy match result, from `pkg/models` (`PolicyMatch` struct). -/
structure PolicyMatch where
  policyID : Nat
  policyName : String
  severity : String
  matchedPattern : String
  deriving Repr, DecidableEq

/-- Character-list test that `needle` occurs at the front of `hay`
(elementwise equality). -/
def leadsWith : List Char → List Char → Bool
  | [], _ => true
  | _ :: _, [] => false
  | a :: as, b :: bs => a == b && leadsWith as bs

/-- Character-list substring containment: `needle` occurs contiguously
somewhere in `hay`.  Models Go `strings.Contains`. -/
def listContains (needle : List Char) : List Char → Bool
  | [] => needle.isEmpty
  | c :: t => leadsWith needle (c :: t) || listContains needle t

/-- Lower-cased character list of a string (models `strings.ToLower`
on ASCII input). -/
def lowerChars (s : String) : List Char :=
  s.toList.map Char.toLower

/-- Embeds `matchKeyword` (`internal/analyzer/analyzer.go`): lower-case
both keyword and content, test substring containment, and on a hit
report the keyword in its original case. -/
def matchKeyword (keyword content : String) : Bool × String :=
  if listContains (lowerChars keyword) (lowerChars content) then
    (true, keyword)
  else
    (false, "")

theorem leadsWith_iff (n h : List Char) :
    leadsWith n h = true ↔ ∃ rest, h = n ++ rest := by
  induction n generalizing h with
  | nil => simp [leadsWith]
  | cons a as ih =>
    cases h with
    | nil =>
      simp [leadsWith]
    | cons b bs =>
      simp only [leadsWith, Bool.and_eq_true, beq_iff_eq, ih, List.cons_append,
        List.cons.injEq]
      constructor
      · rintro ⟨rfl, rest, rfl⟩
        exact ⟨rest, rfl, rfl⟩
      · rintro ⟨rest, rfl, rfl⟩
        exact ⟨rfl, rest, rfl⟩

theorem listContains_iff (n h : List Char) :
    listContains n h = true ↔ ∃ pre post, h = pre ++ n ++ post := by
  induction h with
  | nil =>
    simp only [listContains, List.isEmpty_iff]
    constructor
    · rintro rfl
      exact ⟨[], [], rfl⟩
    · rintro ⟨pre, post, hh⟩
      have hlen := congrArg List.length hh
      simp at hlen
      have hn : n.length = 0 := by omega
      exact List.length_eq_zero.mp hn
  | cons c t ih =>
    simp only [listContains, Bool.or_eq_true, leadsWith_iff, ih]
    constructor
    · rintro (⟨rest, hrest⟩ | ⟨pre, post, rfl⟩)
      · exact ⟨[], rest, by simpa using hrest⟩
      · exact ⟨c :: pre, post, rfl⟩
    · rintro ⟨pre, post, hh⟩
      cases pre with
      | nil =>
        exact Or.inl ⟨post, by simpa using hh⟩
      | cons p ps =>
        simp only [List.cons_append, List.cons.injEq] at hh
        exact Or.inr ⟨ps, post, hh.2⟩

/-- External collaborators of the analyzer that live outside this
repository: the Go `regexp` engine (compile + first-match search, and
replace-all used by redaction) and the go-away profanity detector.
`regexFind pat content` returns `.error` on a compile failure and
otherwise the optional first matched substring; `regexReplaceAll pat
content` returns `none` on a compile failure and otherwise the content
with every occurrence of the pattern replaced by `[REDACTED]`. -/
structure ExternalMatchers where
  regexFind : String → String → Except String (Option String)
  regexReplaceAll : String → String → Option String
  isProfane : String → Bool
  censor : String → String

/-- Embeds `checkPolicyMatch` (`internal/analyzer/analyzer.go`):
dispatch on the policy's pattern kind.  `regex` delegates to the regex
engine (via `matchRegex`/`getCompiledPattern`, whose memoization table
is semantically transparent), `keyword` to `matchKeyword`, `profanity`
to the external detector with the literal marker "profanity detected";
any other kind — including `model` — is an unknown pattern type
error. -/
def checkPolicyMatch (ext : ExternalMatchers) (policy : Policy)
    (content : String) : Except String (Bool × String) :=
  if policy.patternType = "regex" then
    match ext.regexFind policy.patternValue content with
    | .error e => .error e
    | .ok (some m) => .ok (true, m)
    | .ok none => .ok (false, "")
  else if policy.patternType = "keyword" then
    .ok (matchKeyword policy.patternValue content)
  else if policy.patternType = "profanity" then
    if ext.isProfane content then .ok (true, "profanity detected")
    else .ok (false, "")
  else
    .error ("unknown pattern type: " ++ policy.patternType)

/-- Fan-in loop of `Analyze` (`internal/analyzer/analyzer.go`): one
result per enabled policy; any error aborts the evaluation, a positive
match appends a `PolicyMatch` built from the policy, a negative result
contributes nothing.  The goroutines' completion order is abstracted to
snapshot order (see the file header). -/
def analyzeLoop (ext : ExternalMatchers) (content : String) :
    List Policy → List PolicyMatch → Except String (List PolicyMatch)
  | [], acc => .ok acc
  | p :: rest, acc =>
    match checkPolicyMatch ext p content with
    | .error e => .error ("error matching policy " ++ p.name ++ ": " ++ e)
    | .ok (true, pat) =>
      analyzeLoop ext content rest
        (acc ++ [{ policyID := p.id, policyName := p.name,
                   severity := p.severity, matchedPattern := pat }])
    | .ok (false, _) => analyzeLoop ext content rest acc

/-- Embeds `Analyze` (`internal/analyzer/analyzer.go`): filter the
snapshot down to enabled policies, check every one of them, and return
the collected matches (or the first error). -/
def Analyze (ext : ExternalMatchers) (content : String)
    (policies : List Policy) : Except String (List PolicyMatch) :=
  analyzeLoop ext content (policies.filter (·.enabled)) []

/-- First policy in the snapshot with the given id, or `none`.  Embeds
the inner lookup loop (with `break`) of `HandleAnalyze`
(`internal/api/handlers.go`). -/
def verdictLookup (ps : List Policy) (pid : Nat) : Option Policy :=
  match ps with
  | [] => none
  | p :: rest => if p.id = pid then some p else verdictLookup rest pid

/-- One step of the verdict loop of `HandleAnalyze`: if the match's
policy is found and has action `block`, the accumulated verdict becomes
`("block", false)`; otherwise it is unchanged.  (Severity tracking is
telemetry only and does not feed the verdict.) -/
def verdictStep (ps : List Policy) (acc : String × Bool)
    (m : PolicyMatch) : String × Bool :=
  match verdictLookup ps m.policyID with
  | some p => if p.action = "block" then ("block", false) else acc
  | none => acc

/-- Verdict reduction of `HandleAnalyze` (`internal/api/handlers.go`
lines 88-108): starting from `("allow", true)`, scan the matches and
flip to `("block", false)` on any match whose policy has action
`block`.  Returns `(action, allowed)`. -/
def verdictAction (ms : List PolicyMatch) (ps : List Policy) :
    String × Bool :=
  ms.foldl (verdictStep ps) ("allow", true)

/-- Replacement inserted between (and around) every character, the Go
`regexp.ReplaceAllString` behaviour when the quoted keyword is the
empty string (the empty pattern matches at every position). -/
def interleaveRepl (repl : List Char) : List Char → List Char
  | [] => repl
  | c :: rest => repl ++ c :: interleaveRepl repl rest

/-- Scanner for case-insensitive literal replace-all: leftmost,
non-overlapping, resuming after each replacement — the behaviour of
`regexp.MustCompile("(?i)" + regexp.QuoteMeta(kw)).ReplaceAllString`
for a non-empty keyword `kw`.  `kwL` is the lower-cased keyword.  The
`fuel` argument only makes the recursion structural; every call below
supplies `fuel` at least the length of the scanned list, and each step
consumes at least one character per unit of fuel, so the `0` branch is
never reached. -/
def ciReplaceAux (kw kwL repl : List Char) : Nat → List Char → List Char
  | _, [] => []
  | 0, l => l
  | fuel + 1, c :: rest =>
    if leadsWith kwL ((c :: rest).map Char.toLower) then
      repl ++ ciReplaceAux kw kwL repl fuel (rest.drop (kw.length - 1))
    else
      c :: ciReplaceAux kw kwL repl fuel rest

/-- Case-insensitive literal replace-all on strings (the keyword branch
of `RedactContent` in `internal/analyzer/analyzer.go`). -/
def ciReplaceAll (kw repl content : String) : String :=
  if kw.toList.isEmpty then
    String.mk (interleaveRepl repl.toList content.toList)
  else
    String.mk (ciReplaceAux kw.toList (lowerChars kw) repl.toList
      content.toList.length content.toList)

/-- Last policy in the list with the given id, or `none`: in Go,
`RedactContent` builds `policyMap[p.ID.String()] = p` over the slice, so
a later entry overwrites an earlier one with the same id. -/
def policyMapLookup (ps : List Policy) (pid : Nat) : Option Policy :=
  ps.foldl (fun acc p => if p.id = pid then some p else acc) none

/-- One iteration of the redaction loop of `RedactContent`
(`internal/analyzer/analyzer.go`): skip the match unless its policy
exists and has action `redact`; then replace by kind — `regex` via the
external engine (a compile error skips the match, mirroring the
`err == nil` guard), `keyword` via case-insensitive literal
replacement with "[REDACTED]", `profanity` via the external censor. -/
def redactStep (ext : ExternalMatchers) (ps : List Policy)
    (redacted : String) (m : PolicyMatch) : String :=
  match policyMapLookup ps m.policyID with
  | none => redacted
  | some p =>
    if p.action ≠ "redact" then redacted
    else if p.patternType = "regex" then
      match ext.regexReplaceAll p.patternValue redacted with
      | some r => r
      | none => redacted
    else if p.patternType = "keyword" then
      ciReplaceAll p.patternValue "[REDACTED]" redacted
    else if p.patternType = "profanity" then
      ext.censor redacted
    else redacted

/-- Embeds `RedactContent` (`internal/analyzer/analyzer.go`): fold the
redaction step over the matches, starting from the original content. -/
def RedactContent (ext : ExternalMatchers) (content : String)
    (ms : List PolicyMatch) (policies : List Policy) : String :=
  ms.foldl (redactStep ext policies) content

/-- Create-policy request payload, from `pkg/models`
(`CreatePolicyRequest`). -/
structure CreatePolicyRequest where
  name : String
  description : String
  patternType : String
  patternValue : String
  severity : String
  action : String
  deriving Repr, DecidableEq

/-- Embeds `validateCreateRequest` (`internal/policy/repository.go`):
non-empty name, pattern type in {regex, keyword, profanity, model},
non-empty pattern value, severity in {low, medium, high, critical},
action in {log, block, redact}.  Returns `some message` on the first
failed check, `none` when the request is accepted. -/
def validateCreateRequest (req : CreatePolicyRequest) : Option String :=
  if req.name = "" then
    some "name is required"
  else if ¬ (req.patternType = "regex" ∨ req.patternType = "keyword" ∨
      req.patternType = "profanity" ∨ req.patternType = "model") then
    some "pattern_type must be one of: regex, keyword, profanity, model"
  else if req.patternValue = "" then
    some "pattern_value is required"
  else if ¬ (req.severity = "low" ∨ req.severity = "medium" ∨
      req.severity = "high" ∨ req.severity = "critical") then
    some "invalid severity: must be low, medium, high, or critical"
  else if ¬ (req.action = "log" ∨ req.action = "block" ∨
      req.action = "redact") then
    some "invalid action: must be log, block, or redact"
  else
    none

/-- Embeds `Create` (`internal/policy/repository.go`): validate, then
insert a row with `enabled = true` and a server-assigned id.  The
durable store is modelled as the list of stored policies; `newId` is
the id the store mints for the row. -/
def Create (newId : Nat) (store : List Policy) (req : CreatePolicyRequest) :
    Except String (List Policy × Policy) :=
  match validateCreateRequest req with
  | some e => .error e
  | none =>
    let p : Policy :=
      { id := newId, name := req.name, patternType := req.patternType,
        patternValue := req.patternValue, severity := req.severity,
        action := req.action, enabled := true }
    .ok (store ++ [p], p)

/-- Modelled from the spec: the "standard regex engine" that create-time
validation is claimed to consult is the Go `regexp` package, which is
not part of this repository.  This minimal syntactic fragment of its
compile check rejects a pattern with an unterminated character class or
unbalanced parentheses — enough to classify the spec's own example
`[unbalanced(` as non-compiling.  (Escapes and other syntax errors are
out of this fragment; it never has to accept-reject-agree with the full
engine beyond the patterns used in the theorems below.) -/
def regexBalancedFrom : List Char → Nat → Bool → Bool
  | [], depth, inCls => ¬ inCls && depth = 0
  | c :: rest, depth, inCls =>
    if inCls then
      if c = ']' then regexBalancedFrom rest depth false
      else regexBalancedFrom rest depth true
    else if c = '[' then regexBalancedFrom rest depth true
    else if c = '(' then regexBalancedFrom rest (depth + 1) false
    else if c = ')' then
      match depth with
      | 0 => false
      | d + 1 => regexBalancedFrom rest d false
    else regexBalancedFrom rest depth false

/-- Modelled from the spec: pattern compilability under the standard
regex engine (fragment; see `regexBalancedFrom`). -/
def regexCompiles (pattern : String) : Bool :=
  regexBalancedFrom pattern.toList 0 false

/-- Audit record, from `pkg/models` (`AuditLog` struct).  Hashes are
opaque strings; timestamps are irrelevant to the claims and omitted. -/
structure AuditRec where
  id : Nat
  requestId : Nat
  clientId : String
  promptHash : String
  responseHash : String
  policiesTriggered : List Nat
  actionTaken : String
  latencyMs : Nat
  deriving Repr, DecidableEq

/-- State of the audit ingress `Logger` (`internal/audit/logger.go`):
the bounded channel's contents and capacity, plus the rows of the
durable `audit_logs` table. -/
structure LoggerState where
  buffer : List AuditRec
  capacity : Nat
  store : List AuditRec
  deriving Repr, DecidableEq

/-- Embeds `writeToDatabase` (`internal/audit/logger.go`): one
synchronous insert into the durable store.  `dbOk` stands for the
outcome of the external database call: on success the row is appended
and `true` (no error) is returned, on failure the state is unchanged
and `false` (an error) is returned. -/
def writeToDatabase (dbOk : Bool) (s : LoggerState) (entry : AuditRec) :
    LoggerState × Bool :=
  if dbOk then ({ s with store := s.store ++ [entry] }, true)
  else (s, false)

/-- Embeds `Log` (`internal/audit/logger.go` lines 99-112): the
non-blocking `select` enqueues onto the channel when it has room and
returns nil immediately; when the channel is full it falls through to a
synchronous `writeToDatabase` on the caller's goroutine.  The returned
`Bool` is `true` for a nil error. -/
def Log (dbOk : Bool) (s : LoggerState) (entry : AuditRec) :
    LoggerState × Bool :=
  if s.buffer.length < s.capacity then
    ({ s with buffer := s.buffer ++ [entry] }, true)
  else
    writeToDatabase dbOk s entry

/-- One drain cycle of `syncAuditLogsToPostgres`
(`internal/cache/redis_cache.go` lines 219-292).  The Redis list is a
`List String` whose head is the Redis head (`LPush` prepends;
`RPopCount` pops from the tail, oldest first).  External behaviour is
parameterised: `parse` is `json.Unmarshal` (`none` = unparseable, the
entry is skipped with a log line), `bulkOk` the outcome of the bulk
COPY transaction, `insertOk` the per-record fallback insert outcome.
Returns the queue after the cycle and the records delivered to the
durable store.  Note the fallback loop indexes the raw `logs` slice
with the index of the parsed `entries` slice, exactly as the Go code
does (`failedLogs = append(failedLogs, logs[i])`). -/
def syncAuditLogsToPostgres (parse : String → Option AuditRec)
    (bulkOk : Bool) (insertOk : AuditRec → Bool) (queue : List String) :
    List String × List AuditRec :=
  let logs := queue.reverse.take 10000
  let remaining := (queue.reverse.drop 10000).reverse
  if logs.isEmpty then (queue, [])
  else
    let entries := logs.filterMap parse
    if entries.isEmpty then (remaining, [])
    else if bulkOk then (remaining, entries)
    else
      let failedRaw := (entries.enum.filter
        (fun ie => ¬ insertOk ie.2)).map (fun ie => logs.getD ie.1 "")
      let delivered := entries.filter (fun e => insertOk e)
      (failedRaw.foldl (fun q r => r :: q) remaining, delivered)

/-- Application configuration, from `internal/config/config.go`
(`Config` struct). -/
structure Config where
  port : String
  databaseURL : String
  redisURL : String
  logLevel : String
  auditBufferSize : Int
  auditWorkers : Int
  dbMaxOpenConns : Int
  dbMaxIdleConns : Int
  deriving Repr, DecidableEq

/-- Embeds `getEnv` (`internal/config/config.go`): `env` models
`os.Getenv`, which yields `""` for an unset variable; a non-empty value
wins over the default. -/
def getEnv (env : String → String) (key defaultValue : String) : String :=
  if env key ≠ "" then env key else defaultValue

/-- Embeds `getEnvAsInt` (`internal/config/config.go`): a non-empty
value that scans as an integer wins over the default; `atoi` models the
external `fmt.Sscanf "%d"` parse (`none` = parse failure). -/
def getEnvAsInt (env : String → String) (atoi : String → Option Int)
    (key : String) (defaultValue : Int) : Int :=
  if env key ≠ "" then
    match atoi (env key) with
    | some v => v
    | none => defaultValue
  else defaultValue

/-- Embeds `Load` (`internal/config/config.go`): populate every field
from the environment with its default, then fail fast when a required
URL is missing. -/
def Load (env : String → String) (atoi : String → Option Int) :
    Except String Config :=
  let config : Config :=
    { port := getEnv env "PORT" "8080"
      databaseURL := getEnv env "DATABASE_URL" ""
      redisURL := getEnv env "REDIS_URL" ""
      logLevel := getEnv env "LOG_LEVEL" "debug"
      auditBufferSize := getEnvAsInt env atoi "AUDIT_BUFFER_SIZE" 1000
      auditWorkers := getEnvAsInt env atoi "AUDIT_WORKERS" 5
      dbMaxOpenConns := getEnvAsInt env atoi "DB_MAX_OPEN_CONNS" 20
      dbMaxIdleConns := getEnvAsInt env atoi "DB_MAX_IDLE_CONNS" 20 }
  if config.databaseURL = "" then .error "DATABASE_URL is required"
  else if config.redisURL = "" then .error "REDIS_URL is required"
  else .ok config

/-- Embeds `DefaultConfig` (`internal/audit/logger.go` lines 30-36):
the logger's own fallback buffer size and worker count, used by
`NewLogger` when the caller does not pass the loaded configuration. -/
def auditDefaultConfig : Int × Int :=
  (5000, 50)

end Gateway

namespace Gateway

/-- Trivial instantiation of the external collaborators, used by the
concrete counterexamples and witnesses below: the regex engine never
matches, the profanity detector never fires, the censor is the
identity.  Every concrete scenario below exercises only the embedded
keyword/model paths, which never consult these. -/
def extTriv : ExternalMatchers :=
  { regexFind := fun _ _ => .ok none
    regexReplaceAll := fun _ _ => none
    isProfane := fun _ => false
    censor := fun s => s }

/-- Enabled keyword policy matching "alpha", action `log`. -/
def pKwA : Policy := ⟨1, "kwA", "keyword", "alpha", "low", "log", true⟩

/-- Enabled keyword policy matching "beta", action `block`. -/
def pKwB : Policy := ⟨2, "kwB", "keyword", "beta", "high", "block", true⟩

/-- Enabled policy of kind `model`. -/
def pModel : Policy := ⟨3, "guard", "model", "nemotron", "high", "block", true⟩

/-- Enabled keyword policy whose keyword "ACT" occurs inside the
replacement token "[REDACTED]", action `redact`. -/
def pAct : Policy := ⟨4, "actkw", "keyword", "ACT", "low", "redact", true⟩

/-- Match of `pAct`. -/
def mAct : PolicyMatch := ⟨4, "actkw", "low", "ACT"⟩

/-- Disabled keyword policy that would match "alpha", action `block`. -/
def pDis : Policy := ⟨9, "dis", "keyword", "alpha", "critical", "block", false⟩

end Gateway

namespace Gateway

/-- C10: keyword matching imposes no word-boundary requirement — a
keyword policy matches exactly when the lower-cased keyword occurs as a
raw substring of the lower-cased content, and a hit reports the
keyword in its original case (the only other outcome being a clean
miss). -/
theorem matchKeyword_substring_no_boundary (keyword content : String) :
    (matchKeyword keyword content = (true, keyword) ↔
      ∃ pre post, lowerChars content = pre ++ lowerChars keyword ++ post) ∧
    (matchKeyword keyword content = (true, keyword) ∨
      matchKeyword keyword content = (false, "")) := by
  unfold matchKeyword
  split
  case isTrue hc =>
    exact ⟨⟨fun _ => (listContains_iff _ _).mp hc, fun _ => rfl⟩, Or.inl rfl⟩
  case isFalse hc =>
    refine ⟨⟨fun h => absurd (congrArg Prod.fst h) (by simp), fun h => ?_⟩,
      Or.inr rfl⟩
    exact absurd ((listContains_iff _ _).mpr h) hc

/-- C10 witness: the keyword "DAN" fires inside the longer word
"dandelion" and reports "DAN" in its original case. -/
theorem matchKeyword_substring_no_boundary_witness :
    matchKeyword "DAN" "dandelion" = (true, "DAN") :=
  (matchKeyword_substring_no_boundary "DAN" "dandelion").1.mpr
    ⟨[], ['d', 'e', 'l', 'i', 'o', 'n'], by decide⟩

/-- Fold invariant of the verdict loop: starting from an accumulator
that is either `("allow", true)` or `("block", false)`, the fold stays
in that two-element set, and ends at `("block", false)` exactly when it
started there or some match resolves to a policy with action
`block`. -/
theorem verdictFold_cases (ps : List Policy) (ms : List PolicyMatch) :
    ∀ acc, acc = ("allow", true) ∨ acc = ("block", false) →
      (ms.foldl (verdictStep ps) acc = ("allow", true) ∨
        ms.foldl (verdictStep ps) acc = ("block", false)) ∧
      (ms.foldl (verdictStep ps) acc = ("block", false) ↔
        acc = ("block", false) ∨
        ∃ m ∈ ms, ∃ p, verdictLookup ps m.policyID = some p ∧
          p.action = "block") := by
  induction ms with
  | nil =>
    intro acc hacc
    refine ⟨hacc, ?_⟩
    simp
  | cons m rest ih =>
    intro acc hacc
    have hstep : verdictStep ps acc m = ("allow", true) ∨
        verdictStep ps acc m = ("block", false) := by
      unfold verdictStep
      cases verdictLookup ps m.policyID with
      | none => exact hacc
      | some p =>
        by_cases hb : p.action = "block"
        · simp [hb]
        · simp [hb]
          exact hacc
    have hstep2 : verdictStep ps acc m = ("block", false) ↔
        acc = ("block", false) ∨
        ∃ p, verdictLookup ps m.policyID = some p ∧ p.action = "block" := by
      unfold verdictStep
      cases hl : verdictLookup ps m.policyID with
      | none => simp [hl]
      | some p =>
        by_cases hb : p.action = "block" <;> simp [hl, hb]
    obtain ⟨h1, h2⟩ := ih _ hstep
    rw [List.foldl_cons]
    refine ⟨h1, h2.trans ?_⟩
    rw [hstep2]
    simp only [List.mem_cons]
    constructor
    · rintro ((h | h) | ⟨m', hm', hp⟩)
      · exact Or.inl h
      · exact Or.inr ⟨m, Or.inl rfl, h⟩
      · exact Or.inr ⟨m', Or.inr hm', hp⟩
    · rintro (h | ⟨m', (rfl | hm'), hp⟩)
      · exact Or.inl (Or.inl h)
      · exact Or.inl (Or.inr hp)
      · exact Or.inr ⟨m', hm', hp⟩

/-- C2: for every evaluation result, the derived verdict has
`action = "block"` iff some returned match resolves (by the handler's
first-with-that-id lookup) to a policy whose action is `block`; the
only other action is "allow"; and `allowed` is true exactly when the
action is not "block". -/
theorem verdict_block_iff (ms : List PolicyMatch) (ps : List Policy) :
    ((verdictAction ms ps).1 = "block" ↔
      ∃ m ∈ ms, ∃ p, verdictLookup ps m.policyID = some p ∧
        p.action = "block") ∧
    ((verdictAction ms ps).1 = "allow" ∨ (verdictAction ms ps).1 = "block") ∧
    ((verdictAction ms ps).2 = true ↔ (verdictAction ms ps).1 ≠ "block") := by
  obtain ⟨h1, h2⟩ := verdictFold_cases ps ms ("allow", true) (Or.inl rfl)
  unfold verdictAction
  cases h1 with
  | inl h =>
    rw [h] at h2 ⊢
    simp at h2 ⊢
    exact h2
  | inr h =>
    rw [h] at h2 ⊢
    simp at h2 ⊢
    exact h2

end Gateway

namespace Gateway

/-- Environment with only the required URLs set, every other variable
unset (Go `os.Getenv` yields "" for an unset variable). -/
def envRequiredOnly : String → String := fun k =>
  if k = "DATABASE_URL" then "postgres://db"
  else if k = "REDIS_URL" then "redis://r"
  else ""

/-- The configuration `Load` produces under `envRequiredOnly`. -/
def cfgDefaults : Config :=
  ⟨"8080", "postgres://db", "redis://r", "debug", 1000, 5, 20, 20⟩

/-- C9 counterexample: with the audit environment variables unset,
configuration loading yields an audit buffer size of 1000 and an audit
worker count of 5 — not the 500000 and 100 the claim states.  (The
audit logger's own `DefaultConfig` fallback is 5000 and 50, which does
not match the claim either.) -/
theorem config_defaults_cex :
    Load envRequiredOnly (fun _ => none) = .ok cfgDefaults ∧
    cfgDefaults.auditBufferSize = 1000 ∧ cfgDefaults.auditWorkers = 5 ∧
    ¬ (cfgDefaults.auditBufferSize = 500000 ∧
       cfgDefaults.auditWorkers = 100) ∧
    auditDefaultConfig = (5000, 50) :=
  ⟨rfl, rfl, rfl, by decide, rfl⟩

/-- C9 amended: whenever `AUDIT_BUFFER_SIZE` and `AUDIT_WORKERS` are
unset and loading succeeds, the loaded configuration carries the
defaults actually written in `config.Load`: buffer size 1000 and
worker count 5. -/
theorem config_audit_defaults (env : String → String)
    (atoi : String → Option Int)
    (hb : env "AUDIT_BUFFER_SIZE" = "") (hw : env "AUDIT_WORKERS" = "") :
    ∀ cfg, Load env atoi = .ok cfg →
      cfg.auditBufferSize = 1000 ∧ cfg.auditWorkers = 5 := by
  intro cfg h
  simp only [Load] at h
  split at h
  · exact absurd h (by simp)
  split at h
  · exact absurd h (by simp)
  cases Except.ok.inj h
  constructor
  · show getEnvAsInt env atoi "AUDIT_BUFFER_SIZE" 1000 = 1000
    unfold getEnvAsInt
    simp [hb]
  · show getEnvAsInt env atoi "AUDIT_WORKERS" 5 = 5
    unfold getEnvAsInt
    simp [hw]

/-- C9 witness: the amended default claim at the concrete environment
with only the required URLs set. -/
theorem config_audit_defaults_witness :
    Load envRequiredOnly (fun _ => none) = .ok cfgDefaults ∧
    cfgDefaults.auditBufferSize = 1000 ∧ cfgDefaults.auditWorkers = 5 :=
  ⟨rfl, config_audit_defaults envRequiredOnly (fun _ => none) rfl rfl
    cfgDefaults rfl⟩

/-- Create-policy request whose regex payload does not compile
(the spec's own E6 example pattern). -/
def reqBadRegex : CreatePolicyRequest :=
  ⟨"pii", "", "regex", "[unbalanced(", "low", "log"⟩

/-- The policy row `Create` mints for `reqBadRegex`. -/
def pBadRegex : Policy :=
  ⟨7, "pii", "regex", "[unbalanced(", "low", "log", true⟩

/-- C3 counterexample: the pattern `[unbalanced(` does not compile
(modelled standard-engine check), yet `validateCreateRequest` accepts
the request and `Create` stores the policy — create-time regex
compilation is not checked anywhere in `repository.go`. -/
theorem create_accepts_uncompilable_regex_cex :
    regexCompiles "[unbalanced(" = false ∧
    validateCreateRequest reqBadRegex = none ∧
    Create 7 [] reqBadRegex = .ok ([pBadRegex], pBadRegex) :=
  ⟨by decide, by decide, by rfl⟩

/-- C3 amended: create accepts a request exactly when the name is
non-empty, the kind, severity and action lie in their allowed sets and
the payload is non-empty — with no compilation requirement on regex
payloads; on acceptance the policy is stored with `enabled = true`, on
rejection nothing is stored and the validation message is surfaced. -/
theorem create_validation_amended (req : CreatePolicyRequest) :
    (validateCreateRequest req = none ↔
      (req.name ≠ "" ∧
       (req.patternType = "regex" ∨ req.patternType = "keyword" ∨
        req.patternType = "profanity" ∨ req.patternType = "model") ∧
       req.patternValue ≠ "" ∧
       (req.severity = "low" ∨ req.severity = "medium" ∨
        req.severity = "high" ∨ req.severity = "critical") ∧
       (req.action = "log" ∨ req.action = "block" ∨
        req.action = "redact"))) ∧
    (∀ newId store, validateCreateRequest req = none →
      Create newId store req =
        .ok (store ++ [⟨newId, req.name, req.patternType, req.patternValue,
              req.severity, req.action, true⟩],
             ⟨newId, req.name, req.patternType, req.patternValue,
              req.severity, req.action, true⟩)) ∧
    (∀ newId store e, validateCreateRequest req = some e →
      Create newId store req = .error e) := by
  refine ⟨?_, ?_, ?_⟩
  · unfold validateCreateRequest
    split_ifs with h1 h2 h3 h4 h5 <;> simp_all
  · intro newId store h
    unfold Create
    rw [h]
  · intro newId store e h
    unfold Create
    rw [h]

/-- C3 witness: the amended acceptance behaviour at the concrete
uncompilable-regex request. -/
theorem create_validation_amended_witness :
    validateCreateRequest reqBadRegex = none ∧
    Create 7 [] reqBadRegex = .ok ([pBadRegex], pBadRegex) :=
  ⟨by decide, (create_validation_amended reqBadRegex).2.1 7 [] (by decide)⟩

end Gateway

namespace Gateway

/-- C7: audit ingress never silently drops a record.  With free buffer
space, `Log` enqueues and returns success immediately, leaving the
durable store untouched; with a full buffer it degrades to the
synchronous durable write on the caller's thread (whose database error,
if any, is returned, not swallowed); whenever `Log` reports success the
record is retained in the buffer or the durable store. -/
theorem audit_log_never_drops (dbOk : Bool) (s : LoggerState)
    (entry : AuditRec) :
    (s.buffer.length < s.capacity →
      Log dbOk s entry = ({ s with buffer := s.buffer ++ [entry] }, true)) ∧
    (¬ s.buffer.length < s.capacity →
      Log dbOk s entry = writeToDatabase dbOk s entry ∧
      (dbOk = true →
        Log dbOk s entry =
          ({ s with store := s.store ++ [entry] }, true))) ∧
    ((Log dbOk s entry).2 = true →
      entry ∈ (Log dbOk s entry).1.buffer ∨
      entry ∈ (Log dbOk s entry).1.store) := by
  refine ⟨fun hroom => ?_, fun hfull => ⟨?_, fun hdb => ?_⟩, fun hok => ?_⟩
  · simp [Log, hroom]
  · simp [Log, hfull]
  · simp [Log, hfull, writeToDatabase, hdb]
  · unfold Log at hok ⊢
    split
    case isTrue hroom =>
      simp
    case isFalse hfull =>
      rw [if_neg hfull] at hok
      unfold writeToDatabase at hok ⊢
      cases dbOk with
      | false => simp at hok
      | true => simp

/-- C7 witness: both branches at concrete states — a logger with room
(capacity 2, empty buffer) enqueues and leaves the store alone, and a
saturated logger (capacity 0) falls through to the synchronous durable
write. -/
theorem audit_log_never_drops_witness :
    Log true ⟨[], 2, []⟩ ⟨1, 1, "c", "p", "r", [], "allow", 3⟩ =
      (⟨[⟨1, 1, "c", "p", "r", [], "allow", 3⟩], 2, []⟩, true) ∧
    Log true ⟨[], 0, []⟩ ⟨1, 1, "c", "p", "r", [], "allow", 3⟩ =
      (⟨[], 0, [⟨1, 1, "c", "p", "r", [], "allow", 3⟩]⟩, true) :=
  ⟨(audit_log_never_drops true ⟨[], 2, []⟩ _).1 (by decide),
   ((audit_log_never_drops true ⟨[], 0, []⟩ _).2.1 (by decide)).2 rfl⟩

/-- Parsed form of the well-formed raw record "rawA" in the C8
scenario. -/
def recA : AuditRec := ⟨1, 1, "c", "p", "r", [], "allow", 1⟩

/-- JSON parse behaviour in the C8 scenario: "rawA" parses to `recA`,
anything else (in particular "rawBAD") is unparseable. -/
def parseC8 : String → Option AuditRec := fun s =>
  if s = "rawA" then some recA else none

/-- C8: the fallback loop of `syncAuditLogsToPostgres` indexes the raw
popped slice with the index of the parsed slice
(`failedLogs = append(failedLogs, logs[i])`), so when an unparseable
entry precedes a failing record the wrong raw string is re-pushed.
Concretely: the queue pops ["rawBAD", "rawA"] (oldest first), "rawBAD"
does not parse, the bulk insert and the per-record insert of "rawA"
both fail — the cycle re-pushes the already-dropped "rawBAD" and
silently loses "rawA": it is neither delivered to the durable store
nor back on the queue. -/
theorem sync_requeue_misalignment_bug :
    syncAuditLogsToPostgres parseC8 false (fun _ => false)
      ["rawA", "rawBAD"] = (["rawBAD"], []) ∧
    parseC8 "rawBAD" = none ∧ parseC8 "rawA" = some recA ∧
    ¬ ("rawA" ∈ (syncAuditLogsToPostgres parseC8 false (fun _ => false)
        ["rawA", "rawBAD"]).1 ∨
       recA ∈ (syncAuditLogsToPostgres parseC8 false (fun _ => false)
        ["rawA", "rawBAD"]).2) := by
  refine ⟨by rfl, by rfl, by rfl, ?_⟩
  rintro (h | h) <;> revert h <;> decide

end Gateway

namespace Gateway

/-- Statement predicate: the policy's check over this content succeeds
with a positive match ("the policy would match"). -/
def isHit (ext : ExternalMatchers) (p : Policy) (content : String) : Bool :=
  match checkPolicyMatch ext p content with
  | .ok (true, _) => true
  | _ => false

/-- The fan-in loop yields one match per positively-checking policy:
on success, the result length is the accumulator length plus the count
of hits in the remaining list. -/
theorem analyzeLoop_ok_length (ext : ExternalMatchers) (content : String) :
    ∀ (l : List Policy) (acc : List PolicyMatch) (ms : List PolicyMatch),
      analyzeLoop ext content l acc = .ok ms →
      ms.length = acc.length + l.countP (fun p => isHit ext p content) := by
  intro l
  induction l with
  | nil =>
    intro acc ms h
    cases Except.ok.inj h
    simp
  | cons p rest ih =>
    intro acc ms h
    unfold analyzeLoop at h
    rw [List.countP_cons]
    cases hc : checkPolicyMatch ext p content with
    | error e =>
      rw [hc] at h
      exact absurd h (by simp)
    | ok pr =>
      obtain ⟨b, pat⟩ := pr
      rw [hc] at h
      cases b with
      | true =>
        have hhit : isHit ext p content = true := by simp [isHit, hc]
        have := ih _ _ h
        simp only [List.length_append, List.length_cons, List.length_nil] at this
        simp only [hhit, if_pos]
        omega
      | false =>
        have hhit : isHit ext p content = false := by simp [isHit, hc]
        have := ih _ _ h
        simp only [hhit, Bool.false_eq_true, if_false]
        omega

/-- C1 amended: evaluation does not short-circuit — a successful
`Analyze` returns one match per enabled policy whose check reports a
positive match, so with K enabled all-matching policies the result has
length exactly K (not 1). -/
theorem analyze_match_count (ext : ExternalMatchers) (content : String)
    (ps : List Policy) (ms : List PolicyMatch)
    (h : Analyze ext content ps = .ok ms) :
    ms.length =
      (ps.filter (·.enabled)).countP (fun p => isHit ext p content) := by
  have := analyzeLoop_ok_length ext content (ps.filter (·.enabled)) [] ms h
  simpa using this

/-- C1 counterexample: two enabled policies that both match the
content yield a result of length 2, not the claimed length 1. -/
theorem analyze_all_matches_cex :
    Analyze extTriv "alpha beta" [pKwA, pKwB] =
      .ok [⟨1, "kwA", "low", "alpha"⟩, ⟨2, "kwB", "high", "beta"⟩] ∧
    isHit extTriv pKwA "alpha beta" = true ∧
    isHit extTriv pKwB "alpha beta" = true ∧
    pKwA.enabled = true ∧ pKwB.enabled = true ∧
    ([(⟨1, "kwA", "low", "alpha"⟩ : PolicyMatch),
      ⟨2, "kwB", "high", "beta"⟩].length = 2) :=
  ⟨by rfl, by rfl, by rfl, by rfl, by rfl, by rfl⟩

/-- C1 witness: the amended count claim at the concrete two-policy
snapshot. -/
theorem analyze_match_count_witness :
    ([(⟨1, "kwA", "low", "alpha"⟩ : PolicyMatch),
      ⟨2, "kwB", "high", "beta"⟩]).length =
      ([pKwA, pKwB].filter (·.enabled)).countP
        (fun p => isHit extTriv p "alpha beta") :=
  analyze_match_count extTriv "alpha beta" [pKwA, pKwB] _ (by rfl)

/-- If some policy in the list checks to an error, the fan-in loop
cannot succeed, whatever the accumulator. -/
theorem analyzeLoop_err_of_mem (ext : ExternalMatchers) (content : String)
    (p : Policy) :
    ∀ (l : List Policy) (acc : List PolicyMatch), p ∈ l →
      (∃ e, checkPolicyMatch ext p content = .error e) →
      ∀ ms, analyzeLoop ext content l acc ≠ .ok ms := by
  intro l
  induction l with
  | nil =>
    intro acc hmem
    exact absurd hmem (List.not_mem_nil p)
  | cons q rest ih =>
    intro acc hmem herr ms
    unfold analyzeLoop
    cases hq : checkPolicyMatch ext q content with
    | error e => simp
    | ok pr =>
      obtain ⟨b, pat⟩ := pr
      have hmem' : p ∈ rest := by
        rcases List.mem_cons.mp hmem with rfl | h
        · obtain ⟨e, he⟩ := herr
          rw [hq] at he
          exact absurd he (by simp)
        · exact h
      cases b with
      | true => exact ih _ hmem' herr ms
      | false => exact ih _ hmem' herr ms

/-- C4 amended: the analyzer has no `model` branch — a policy of kind
`model` falls through to the unknown-pattern-type error, and any
snapshot containing an enabled `model` policy makes the whole
evaluation fail, regardless of the external content-safety client's
behaviour (which the analyzer never consults). -/
theorem model_policy_fails_eval (ext : ExternalMatchers) (content : String)
    (ps : List Policy) (p : Policy) (hp : p ∈ ps) (he : p.enabled = true)
    (hk : p.patternType = "model") :
    checkPolicyMatch ext p content =
      .error ("unknown pattern type: " ++ p.patternType) ∧
    ∀ ms, Analyze ext content ps ≠ .ok ms := by
  have hcheck : checkPolicyMatch ext p content =
      .error ("unknown pattern type: " ++ p.patternType) := by
    unfold checkPolicyMatch
    rw [hk]
    simp
  refine ⟨hcheck, fun ms => ?_⟩
  unfold Analyze
  exact analyzeLoop_err_of_mem ext content p _ []
    (List.mem_filter.mpr ⟨hp, by simp [he]⟩) ⟨_, hcheck⟩ ms

/-- C4 counterexample: an enabled `model` policy makes `Analyze`
return the unknown-pattern-type error instead of delegating to the
content-safety client — even under a client-free evaluation where the
claim would demand a clean non-triggered result. -/
theorem model_policy_errors_cex :
    Analyze extTriv "hello" [pModel] =
      .error "error matching policy guard: unknown pattern type: model" ∧
    pModel.enabled = true ∧ pModel.patternType = "model" :=
  ⟨by rfl, by rfl, by rfl⟩

/-- C4 witness: the amended failure claim at the concrete one-policy
snapshot. -/
theorem model_policy_fails_eval_witness :
    checkPolicyMatch extTriv pModel "hello" =
      .error ("unknown pattern type: " ++ pModel.patternType) ∧
    Analyze extTriv "hello" [pModel] ≠ .ok [] :=
  ⟨(model_policy_fails_eval extTriv "hello" [pModel] pModel
      (by simp) (by rfl) (by rfl)).1,
   (model_policy_fails_eval extTriv "hello" [pModel] pModel
      (by simp) (by rfl) (by rfl)).2 []⟩

end Gateway

namespace Gateway

/-- Every match a successful fan-in loop returns either was in the
accumulator already or carries the id of some policy in the list. -/
theorem analyzeLoop_ok_mem (ext : ExternalMatchers) (content : String) :
    ∀ (l : List Policy) (acc ms : List PolicyMatch),
      analyzeLoop ext content l acc = .ok ms →
      ∀ m ∈ ms, m ∈ acc ∨ ∃ p, p ∈ l ∧ p.id = m.policyID := by
  intro l
  induction l with
  | nil =>
    intro acc ms h m hm
    cases Except.ok.inj h
    exact Or.inl hm
  | cons p rest ih =>
    intro acc ms h m hm
    unfold analyzeLoop at h
    cases hc : checkPolicyMatch ext p content with
    | error e =>
      rw [hc] at h
      exact absurd h (by simp)
    | ok pr =>
      obtain ⟨b, pat⟩ := pr
      rw [hc] at h
      cases b with
      | true =>
        rcases ih _ _ h m hm with hacc | ⟨q, hq, hid⟩
        · rcases List.mem_append.mp hacc with h1 | h2
          · exact Or.inl h1
          · rcases List.mem_singleton.mp h2 with rfl
            exact Or.inr ⟨p, List.mem_cons_self p rest, rfl⟩
        · exact Or.inr ⟨q, List.mem_cons_of_mem p hq, hid⟩
      | false =>
        rcases ih _ _ h m hm with hacc | ⟨q, hq, hid⟩
        · exact Or.inl hacc
        · exact Or.inr ⟨q, List.mem_cons_of_mem p hq, hid⟩

/-- When snapshot ids are unique, the handler's first-with-id lookup
finds exactly the member policy with that id. -/
theorem verdictLookup_eq_some (ps : List Policy) (p : Policy)
    (hnd : (ps.map (·.id)).Nodup) (hp : p ∈ ps) :
    verdictLookup ps p.id = some p := by
  induction ps with
  | nil => exact absurd hp (List.not_mem_nil p)
  | cons q rest ih =>
    unfold verdictLookup
    rcases List.mem_cons.mp hp with rfl | hmem
    · rw [if_pos rfl]
    · have hnd' := List.nodup_cons.mp hnd
      have hne : q.id ≠ p.id := by
        intro hid
        apply hnd'.1
        show q.id ∈ List.map (fun x => x.id) rest
        rw [hid]
        exact List.mem_map_of_mem (·.id) hmem
      rw [if_neg hne]
      exact ih hnd'.2 hmem

/-- The verdict fold only consults the snapshot through
`verdictLookup`; snapshots that agree on every match's lookup yield the
same verdict. -/
theorem verdictFold_congr (ps ps' : List Policy) :
    ∀ (ms : List PolicyMatch) (acc : String × Bool),
      (∀ m ∈ ms, verdictLookup ps m.policyID = verdictLookup ps' m.policyID) →
      ms.foldl (verdictStep ps) acc = ms.foldl (verdictStep ps') acc := by
  intro ms
  induction ms with
  | nil => intro acc _; rfl
  | cons m rest ih =>
    intro acc hml
    have hstep : verdictStep ps acc m = verdictStep ps' acc m := by
      unfold verdictStep
      rw [hml m (List.mem_cons_self m rest)]
    rw [List.foldl_cons, List.foldl_cons, hstep]
    exact ih _ (fun m' hm' => hml m' (List.mem_cons_of_mem m hm'))

/-- C6: disabled policies are invisible — `Analyze` over any snapshot
equals `Analyze` over its enabled restriction, and (for snapshots with
unique policy ids, as minted by the store) the verdict derived from a
successful evaluation is likewise unchanged by dropping the disabled
policies. -/
theorem analyze_disabled_invisible (ext : ExternalMatchers)
    (content : String) (ps : List Policy) :
    Analyze ext content ps = Analyze ext content (ps.filter (·.enabled)) ∧
    ((ps.map (·.id)).Nodup → ∀ ms, Analyze ext content ps = .ok ms →
      verdictAction ms ps = verdictAction ms (ps.filter (·.enabled))) := by
  have hff : (ps.filter (·.enabled)).filter (·.enabled) =
      ps.filter (·.enabled) :=
    List.filter_eq_self.mpr (fun a ha => (List.mem_filter.mp ha).2)
  constructor
  · unfold Analyze
    rw [hff]
  · intro hnd ms h
    have hndf : ((ps.filter (·.enabled)).map (·.id)).Nodup :=
      hnd.sublist ((ps.filter_sublist).map (·.id))
    unfold verdictAction
    apply verdictFold_congr
    intro m hm
    rcases analyzeLoop_ok_mem ext content _ _ _ h m hm with hacc | ⟨p, hp, hid⟩
    · exact absurd hacc (List.not_mem_nil m)
    · have hpe : p.enabled = true := (List.mem_filter.mp hp).2
      have hps : p ∈ ps := (List.mem_filter.mp hp).1
      rw [← hid, verdictLookup_eq_some ps p hnd hps,
        verdictLookup_eq_some _ p hndf hp]

/-- C6 witness: a snapshot holding a disabled `block` policy and an
enabled `log` policy — evaluation result and derived verdict both
coincide with those over the enabled restriction. -/
theorem analyze_disabled_invisible_witness :
    Analyze extTriv "alpha beta" [pDis, pKwA] =
      Analyze extTriv "alpha beta" ([pDis, pKwA].filter (·.enabled)) ∧
    verdictAction [⟨1, "kwA", "low", "alpha"⟩] [pDis, pKwA] =
      verdictAction [⟨1, "kwA", "low", "alpha"⟩]
        ([pDis, pKwA].filter (·.enabled)) :=
  ⟨(analyze_disabled_invisible extTriv "alpha beta" [pDis, pKwA]).1,
   (analyze_disabled_invisible extTriv "alpha beta" [pDis, pKwA]).2
     (by decide) _ (by rfl)⟩

end Gateway

namespace Gateway

/-- The empty needle is contained in every haystack (matching Go's
`strings.Contains` and the empty regex pattern). -/
theorem listContains_nil (h : List Char) : listContains [] h = true := by
  induction h with
  | nil => rfl
  | cons c t ih => simp [listContains, leadsWith]

/-- A scan that never finds the lower-cased keyword leaves the text
unchanged. -/
theorem ciReplaceAux_no_occ (kw kwL repl : List Char) :
    ∀ (hay : List Char) (fuel : Nat), hay.length ≤ fuel →
      listContains kwL (hay.map Char.toLower) = false →
      ciReplaceAux kw kwL repl fuel hay = hay := by
  intro hay
  induction hay with
  | nil =>
    intro fuel _ _
    cases fuel <;> rfl
  | cons ch t ih =>
    intro fuel hfuel hcont
    cases fuel with
    | zero => simp at hfuel
    | succ f =>
      simp only [List.map_cons, listContains, Bool.or_eq_false_iff] at hcont
      unfold ciReplaceAux
      rw [List.map_cons, if_neg (by simp [hcont.1])]
      have ht := ih f (by simp at hfuel; omega) hcont.2
      rw [ht]

/-- Case-insensitive replace-all is the identity when the lower-cased
keyword does not occur in the lower-cased content. -/
theorem ciReplaceAll_no_occ (kw repl s : String)
    (h : listContains (lowerChars kw) (lowerChars s) = false) :
    ciReplaceAll kw repl s = s := by
  unfold ciReplaceAll
  split
  case isTrue hke =>
    exfalso
    have : lowerChars kw = [] := by
      unfold lowerChars
      rw [List.isEmpty_iff.mp hke]
      rfl
    rw [this, listContains_nil] at h
    exact Bool.true_eq_false.mp h
  case isFalse hke =>
    rw [ciReplaceAux_no_occ kw.toList (lowerChars kw) repl.toList s.toList
      s.toList.length (le_refl _) h]
    rfl

/-- A fold whose step fixes the accumulator on every element of the
list returns the accumulator. -/
theorem foldl_fixed {α β : Type} (f : α → β → α) (x : α) :
    ∀ l : List β, (∀ b ∈ l, f x b = x) → l.foldl f x = x := by
  intro l
  induction l with
  | nil => intro _; rfl
  | cons b t ih =>
    intro hfix
    rw [List.foldl_cons, hfix b (List.mem_cons_self b t)]
    exact ih (fun b' hb' => hfix b' (List.mem_cons_of_mem b hb'))

/-- C5 counterexample: a keyword redact policy whose keyword "ACT"
occurs (case-insensitively) inside the replacement token "[REDACTED]"
breaks idempotence: redacting "act" once yields "[REDACTED]", redacting
the output again yields "[RED[REDACTED]ED]". -/
theorem redact_not_idempotent_cex :
    RedactContent extTriv "act" [mAct] [pAct] = "[REDACTED]" ∧
    RedactContent extTriv (RedactContent extTriv "act" [mAct] [pAct])
      [mAct] [pAct] = "[RED[REDACTED]ED]" ∧
    RedactContent extTriv (RedactContent extTriv "act" [mAct] [pAct])
      [mAct] [pAct] ≠ RedactContent extTriv "act" [mAct] [pAct] :=
  ⟨by decide, by decide, by decide⟩

/-- C5 amended: redaction is idempotent over its own output provided
no redact policy's pattern still matches the redacted output — here
stated for keyword redact policies (regex redaction delegates to the
external engine and profanity redaction to the external censor, so
idempotence there is a property of those collaborators): if every match
that resolves to a redact policy is a keyword policy whose lower-cased
keyword does not occur in the once-redacted output, a second redaction
pass is the identity. -/
theorem redact_idempotent_amended (ext : ExternalMatchers)
    (content : String) (ms : List PolicyMatch) (policies : List Policy)
    (h : ∀ m ∈ ms, ∀ p, policyMapLookup policies m.policyID = some p →
      p.action = "redact" →
      p.patternType = "keyword" ∧
      listContains (lowerChars p.patternValue)
        (lowerChars (RedactContent ext content ms policies)) = false) :
    RedactContent ext (RedactContent ext content ms policies) ms policies =
      RedactContent ext content ms policies := by
  apply foldl_fixed
  intro m hm
  unfold redactStep
  cases hl : policyMapLookup policies m.policyID with
  | none => rfl
  | some p =>
    dsimp only
    by_cases ha : p.action = "redact"
    · obtain ⟨hk, hno⟩ := h m hm p hl ha
      rw [if_neg (by simp [ha]), if_neg (by rw [hk]; decide), if_pos hk]
      exact ciReplaceAll_no_occ _ _ _ hno
    · rw [if_pos ha]

/-- Keyword redact policy whose keyword does not occur in the
replacement token. -/
def pUser : Policy := ⟨6, "usr", "keyword", "user", "low", "redact", true⟩

/-- Match of `pUser`. -/
def mUser : PolicyMatch := ⟨6, "usr", "low", "user"⟩

/-- C5 witness: the amended idempotence claim at a concrete redaction
whose keyword no longer occurs in the redacted output. -/
theorem redact_idempotent_amended_witness :
    RedactContent extTriv
        (RedactContent extTriv "contact user now" [mUser] [pUser])
        [mUser] [pUser] =
      RedactContent extTriv "contact user now" [mUser] [pUser] :=
  redact_idempotent_amended extTriv "contact user now" [mUser] [pUser]
    (by
      intro m hm p hl ha
      rcases List.mem_singleton.mp hm with rfl
      cases Option.some.inj hl
      exact ⟨rfl, by decide⟩)

end Gateway

